import Mathlib

/-!
Shallow embedding of the CCI scanner core (`src/lib/cci.ts`) and proofs of
the specification claims about it.

Numbers are modelled by `ℚ`; the JavaScript `NaN` sentinel ("undefined
marker") is modelled by `Option ℚ` with `none` playing the role of `NaN`.
Every place the source tests `isNaN(x)` the embedding pattern-matches on the
option; JavaScript comparisons involving `NaN` are false, which matches the
`| _ => false` branches below.  Out-of-range array reads (which yield
`undefined` in JavaScript and make every comparison false) are modelled by
`List.getD _ _ none` / `List.get?` returning `none`.
-/

/-- OHLCV bar, from `src/lib/polygon.ts` (`interface Bar`). -/
structure Bar where
  o : ℚ
  h : ℚ
  l : ℚ
  c : ℚ
  v : ℚ
  t : ℚ
deriving DecidableEq

/-- Divergence labels, from `export type DivergenceType` in `src/lib/cci.ts`. -/
inductive DivergenceType where
  | REG_BULL
  | REG_BEAR
  | HID_BULL
  | HID_BEAR
  | BREW_BULL
  | BREW_BEAR
deriving DecidableEq

/-- Quality tiers of a divergence (`'STRONG' | 'MODERATE' | 'WEAK'`). -/
inductive Quality where
  | STRONG
  | MODERATE
  | WEAK
deriving DecidableEq

/-- Divergence record, from `export interface Divergence` in `src/lib/cci.ts`. -/
structure Divergence where
  type : DivergenceType
  strength : ℚ
  quality : Quality
  cciValue : ℚ
  price : ℚ
  timestamp : ℚ
  volumeConfirmed : Bool
  momentumConfirmed : Bool
deriving DecidableEq

/-- Simple moving average, from `function sma` in `src/lib/cci.ts`:
`NaN` while `i < period - 1`, otherwise the mean of the trailing window
`values[i-period+1 .. i]`. -/
def sma (values : List ℚ) (period : Nat) : List (Option ℚ) :=
  (List.range values.length).map fun i =>
    if i + 1 < period then none
    else some ((((values.take (i + 1)).drop (i + 1 - period)).sum) / period)

/-- One step of the exponential moving average: the value pushed by the loop
body of `function ema` given the previous output and the current input. -/
def emaStep (multiplier : ℚ) (prev v : Option ℚ) : Option ℚ :=
  match prev with
  | none => v
  | some p => v.map fun x => (x - p) * multiplier + p

/-- The loop of `function ema`, threading the previous output value.  The
initial `prev = none` makes index 0 copy its input, exactly as the
`i === 0` branch of the source does. -/
def emaGo (multiplier : ℚ) (prev : Option ℚ) : List (Option ℚ) → List (Option ℚ)
  | [] => []
  | v :: rest => emaStep multiplier prev v :: emaGo multiplier (emaStep multiplier prev v) rest

/-- Exponential moving average, from `function ema` in `src/lib/cci.ts`. -/
def ema (values : List (Option ℚ)) (period : Nat) : List (Option ℚ) :=
  emaGo (2 / ((period : ℚ) + 1)) none values

/-- Mean absolute deviation, from `function meanDeviation` in `src/lib/cci.ts`. -/
def meanDeviation (values : List ℚ) (period : Nat) : List (Option ℚ) :=
  (List.range values.length).map fun i =>
    if i + 1 < period then none
    else
      let slice := (values.take (i + 1)).drop (i + 1 - period)
      let mean := slice.sum / period
      some ((slice.map fun b => |b - mean|).sum / period)

/-- Typical price of a bar, `(b.h + b.l + b.c) / 3` (`hlc3` in `calculateCCI`). -/
def hlc3 (b : Bar) : ℚ := (b.h + b.l + b.c) / 3

/-- The raw CCI series built inside `calculateCCI`: `NaN` when the windowed
mean or the mean deviation is `NaN` or the mean deviation is `0`, otherwise
`(tp - tpSma[i]) / (0.015 * meanDev[i])`. -/
def rawCCI (bars : List Bar) (period : Nat) : List (Option ℚ) :=
  let tps := bars.map hlc3
  let tpSma := sma tps period
  let meanDev := meanDeviation tps period
  (List.range tps.length).map fun i =>
    match tpSma.getD i none, meanDev.getD i none with
    | some m, some dev =>
        if dev = 0 then none
        else some ((tps.getD i 0 - m) / (3 / 200 * dev))
    | _, _ => none

/-- The momentum series built inside `calculateCCI`: first difference of the
smoothed CCI, `NaN` at index 0 and wherever either term is `NaN`. -/
def momentumOf (cci : List (Option ℚ)) : List (Option ℚ) :=
  (List.range cci.length).map fun i =>
    if i = 0 then none
    else
      match cci.getD i none, cci.getD (i - 1) none with
      | some v, some p => some (v - p)
      | _, _ => none

/-- Result record of `calculateCCI`. -/
structure CCIResult where
  cci : List (Option ℚ)
  momentum : List (Option ℚ)
  volume : List ℚ
  avgVolume : List (Option ℚ)
deriving DecidableEq

/-- `export function calculateCCI` from `src/lib/cci.ts`: double-EMA-smoothed
CCI, its momentum, the raw volumes and their 20-bar moving average. -/
def calculateCCI (bars : List Bar) (period smoothing : Nat) : CCIResult :=
  let raw := rawCCI bars period
  let cci1 := ema raw smoothing
  let cci := ema cci1 2
  { cci := cci
    momentum := momentumOf cci
    volume := bars.map Bar.v
    avgVolume := sma (bars.map Bar.v) 20 }

/-- Neighbour test of the `isLow` flag in `function findPivots`: the source
clears the flag when `isNaN(values[i±j]) || values[i] > values[i±j]`, so the
flag survives the neighbour exactly when it is defined and `v` is not greater
than it. -/
def okLE (v : ℚ) (x : Option ℚ) : Bool :=
  match x with
  | none => false
  | some w => decide (v ≤ w)

/-- Neighbour test of the `isHigh` flag in `function findPivots`: the source
clears the flag when `isNaN(values[i±j]) || values[i] < values[i±j]`. -/
def okGE (v : ℚ) (x : Option ℚ) : Bool :=
  match x with
  | none => false
  | some w => decide (w ≤ v)

/-- The `isLow` flag computed by the loop body of `function findPivots` at
index `i`: the candidate value is defined, and every neighbour in the left
and right lookback windows is defined and not smaller than it. -/
def isLowAt (values : List (Option ℚ)) (lookbackLeft lookbackRight i : Nat) : Bool :=
  match values.getD i none with
  | none => false
  | some v =>
      ((List.range lookbackLeft).all fun j => okLE v (values.getD (i - (j + 1)) none)) &&
      ((List.range lookbackRight).all fun j => okLE v (values.getD (i + (j + 1)) none))

/-- The `isHigh` flag computed by the loop body of `function findPivots` at
index `i`: the candidate value is defined, and every neighbour in the left
and right lookback windows is defined and not greater than it. -/
def isHighAt (values : List (Option ℚ)) (lookbackLeft lookbackRight i : Nat) : Bool :=
  match values.getD i none with
  | none => false
  | some v =>
      ((List.range lookbackLeft).all fun j => okGE v (values.getD (i - (j + 1)) none)) &&
      ((List.range lookbackRight).all fun j => okGE v (values.getD (i + (j + 1)) none))

/-- `function findPivots` from `src/lib/cci.ts`: the loop runs `i` from
`lookbackLeft` (inclusive) to `values.length - lookbackRight` (exclusive)
and collects indices whose `isLow` / `isHigh` flag survives. -/
def findPivots (values : List (Option ℚ)) (lookbackLeft lookbackRight : Nat) :
    List Nat × List Nat :=
  let candidates := (List.range values.length).filter fun i =>
    decide (lookbackLeft ≤ i) && decide (i + lookbackRight < values.length)
  (candidates.filter (isLowAt values lookbackLeft lookbackRight),
   candidates.filter (isHighAt values lookbackLeft lookbackRight))

/-- `function calcStrength` from `src/lib/cci.ts` (`0.015 = 3/200`,
`1.5 = 3/2` as rationals). -/
def calcStrength (priceDiff cciDiff : ℚ)
    (isExtreme highVolume momentumConfirm : Bool) : ℚ :=
  let priceScore := min 3 (|priceDiff| * 100)
  let cciScore := min 3 (|cciDiff| / 30)
  let extremeBonus : ℚ := if isExtreme then 3 / 2 else 0
  let volumeBonus : ℚ := if highVolume then 1 else 0
  let momentumBonus : ℚ := if momentumConfirm then 1 else 0
  min 10 (priceScore + cciScore + extremeBonus + volumeBonus + momentumBonus)

/-- `function getQuality` from `src/lib/cci.ts`. -/
def getQuality (strength : ℚ) : Quality :=
  if 7 ≤ strength then .STRONG
  else if 5 ≤ strength then .MODERATE
  else .WEAK

/-- Emission gate shared by all four divergence branches: push the record
only when `strength >= minStrength`. -/
def gated (minStrength strength : ℚ) (d : Divergence) : List Divergence :=
  if minStrength ≤ strength then [d] else []

/-- Loop body of the pivot-low pass of `export function detectDivergences`:
given the adjacent pivot pair `(prevIdx, currIdx)`, the divergences it
pushes.  Reading `cci`/`bars` outside their range (a `NaN`/crash in the
source; never reached on genuine pivot indices) emits nothing. -/
def bullPair (bars : List Bar) (cci momentum volume avgVolume : List (Option ℚ))
    (minStrength : ℚ) (p : Nat × Nat) : List Divergence :=
  if p.2 - p.1 < 5 ∨ 60 < p.2 - p.1 then []
  else
    match cci.getD p.2 none, cci.getD p.1 none, bars.get? p.2, bars.get? p.1 with
    | some currCCI, some prevCCI, some currBar, some prevBar =>
        let currPrice := currBar.l
        let prevPrice := prevBar.l
        let isExtreme := decide (currCCI < -100)
        let highVol :=
          match volume.getD p.2 none, avgVolume.getD p.2 none with
          | some vv, some av => decide (av * (6 / 5) < vv)
          | _, _ => false
        let momConfirm :=
          match momentum.getD p.2 none with
          | some m => decide (0 < m)
          | none => false
        (if currPrice < prevPrice ∧ prevCCI < currCCI then
          gated minStrength
            (calcStrength ((currPrice - prevPrice) / prevPrice) (currCCI - prevCCI)
              isExtreme highVol momConfirm)
            { type := .REG_BULL
              strength := calcStrength ((currPrice - prevPrice) / prevPrice)
                (currCCI - prevCCI) isExtreme highVol momConfirm
              quality := getQuality (calcStrength ((currPrice - prevPrice) / prevPrice)
                (currCCI - prevCCI) isExtreme highVol momConfirm)
              cciValue := currCCI
              price := currPrice
              timestamp := currBar.t
              volumeConfirmed := highVol
              momentumConfirmed := momConfirm }
        else []) ++
        (if prevPrice < currPrice ∧ currCCI < prevCCI then
          gated minStrength
            (calcStrength ((currPrice - prevPrice) / prevPrice) (prevCCI - currCCI)
              isExtreme highVol momConfirm)
            { type := .HID_BULL
              strength := calcStrength ((currPrice - prevPrice) / prevPrice)
                (prevCCI - currCCI) isExtreme highVol momConfirm
              quality := getQuality (calcStrength ((currPrice - prevPrice) / prevPrice)
                (prevCCI - currCCI) isExtreme highVol momConfirm)
              cciValue := currCCI
              price := currPrice
              timestamp := currBar.t
              volumeConfirmed := highVol
              momentumConfirmed := momConfirm }
        else [])
    | _, _, _, _ => []

/-- Loop body of the pivot-high pass of `export function detectDivergences`. -/
def bearPair (bars : List Bar) (cci momentum volume avgVolume : List (Option ℚ))
    (minStrength : ℚ) (p : Nat × Nat) : List Divergence :=
  if p.2 - p.1 < 5 ∨ 60 < p.2 - p.1 then []
  else
    match cci.getD p.2 none, cci.getD p.1 none, bars.get? p.2, bars.get? p.1 with
    | some currCCI, some prevCCI, some currBar, some prevBar =>
        let currPrice := currBar.h
        let prevPrice := prevBar.h
        let isExtreme := decide (100 < currCCI)
        let highVol :=
          match volume.getD p.2 none, avgVolume.getD p.2 none with
          | some vv, some av => decide (av * (6 / 5) < vv)
          | _, _ => false
        let momConfirm :=
          match momentum.getD p.2 none with
          | some m => decide (m < 0)
          | none => false
        (if prevPrice < currPrice ∧ currCCI < prevCCI then
          gated minStrength
            (calcStrength ((currPrice - prevPrice) / prevPrice) (prevCCI - currCCI)
              isExtreme highVol momConfirm)
            { type := .REG_BEAR
              strength := calcStrength ((currPrice - prevPrice) / prevPrice)
                (prevCCI - currCCI) isExtreme highVol momConfirm
              quality := getQuality (calcStrength ((currPrice - prevPrice) / prevPrice)
                (prevCCI - currCCI) isExtreme highVol momConfirm)
              cciValue := currCCI
              price := currPrice
              timestamp := currBar.t
              volumeConfirmed := highVol
              momentumConfirmed := momConfirm }
        else []) ++
        (if currPrice < prevPrice ∧ prevCCI < currCCI then
          gated minStrength
            (calcStrength ((prevPrice - currPrice) / prevPrice) (currCCI - prevCCI)
              isExtreme highVol momConfirm)
            { type := .HID_BEAR
              strength := calcStrength ((prevPrice - currPrice) / prevPrice)
                (currCCI - prevCCI) isExtreme highVol momConfirm
              quality := getQuality (calcStrength ((prevPrice - currPrice) / prevPrice)
                (currCCI - prevCCI) isExtreme highVol momConfirm)
              cciValue := currCCI
              price := currPrice
              timestamp := currBar.t
              volumeConfirmed := highVol
              momentumConfirmed := momConfirm }
        else [])
    | _, _, _, _ => []

/-- Adjacent pairs `(list[i-1], list[i])` visited by the divergence loops. -/
def adjacentPairs (l : List Nat) : List (Nat × Nat) := l.zip l.tail

/-- The recency cutoff of `detectDivergences`:
`bars[Math.max(0, bars.length - 15)]?.t || 0` (note `Nat` subtraction already
truncates at `0`; `|| 0` replaces a falsy timestamp, i.e. `0`, by `0`). -/
def recencyCutoff (bars : List Bar) : ℚ :=
  match bars.get? (bars.length - 15) with
  | some b => if b.t = 0 then 0 else b.t
  | none => 0

/-- `export function detectDivergences` from `src/lib/cci.ts`. -/
def detectDivergences (bars : List Bar) (cci momentum volume avgVolume : List (Option ℚ))
    (minStrength : ℚ) : List Divergence :=
  let pivots := findPivots cci 5 5
  let divergences :=
    (adjacentPairs pivots.1).flatMap (bullPair bars cci momentum volume avgVolume minStrength) ++
    (adjacentPairs pivots.2).flatMap (bearPair bars cci momentum volume avgVolume minStrength)
  divergences.filter fun d => decide (recencyCutoff bars ≤ d.timestamp)

/-- `export function getCCIZone` from `src/lib/cci.ts`. -/
def getCCIZone (cci : ℚ) : String :=
  if 200 < cci then "EXTREME OB"
  else if 100 < cci then "Overbought"
  else if cci < -200 then "EXTREME OS"
  else if cci < -100 then "Oversold"
  else "Neutral"

/-! ### Concrete inputs used by the witnesses and counterexamples -/

/-- A bar whose four prices are `x`, with volume and timestamp `0`. -/
def mkBar (x : ℚ) : Bar := ⟨x, x, x, x, 0, 0⟩

/-- A hand-crafted smoothed-CCI series with pivot lows at indices 5 and 11
and pivot highs at indices 7 and 8. -/
def exCCI : List (Option ℚ) :=
  ([5, 4, 3, 2, 1, 0, 3, 3, 3, 3, 3, 1, 2, 3, 4, 5, 6] : List ℚ).map some

/-- Seventeen bars whose lows at indices 5 and 11 form a lower low while
`exCCI` forms a higher low there (a regular bullish divergence). -/
def exBars : List Bar :=
  [mkBar 1, mkBar 1, mkBar 1, mkBar 1, mkBar 1, mkBar 100,
   mkBar 1, mkBar 1, mkBar 1, mkBar 1, mkBar 1, mkBar 90,
   mkBar 1, mkBar 1, mkBar 1, mkBar 1, mkBar 1]

/-- The single divergence that `detectDivergences exBars exCCI [] [] [] 3`
emits. -/
def exDiv : Divergence :=
  { type := .REG_BULL
    strength := 91 / 30
    quality := .WEAK
    cciValue := 1
    price := 90
    timestamp := 0
    volumeConfirmed := false
    momentumConfirmed := false }

/-- One bar at price 0 followed by twenty identical bars at price 1: the last
window is flat, so the mean deviation vanishes at index 20 after the CCI has
already become defined at index 19. -/
def exFlat : List Bar := mkBar 0 :: List.replicate 20 (mkBar 1)

/-- Two bars with typical prices 0 and 1. -/
def exPair : List Bar := [mkBar 0, mkBar 1]

/-- The low-pivot predicate exactly as the spec words it, for comparison with
`findPivots`: index in `[lookbackLeft, n-1-lookbackRight]`, value defined,
every window neighbour defined, and the value STRICTLY less than every
neighbour.  (The source accepts equality, so this differs from the code.) -/
def specLowPivot (values : List (Option ℚ)) (L R i : Nat) : Prop :=
  L ≤ i ∧ i + R < values.length ∧
    ∃ v, values.getD i none = some v ∧
      (∀ j, 1 ≤ j → j ≤ L → ∃ w, values.getD (i - j) none = some w ∧ v < w) ∧
      (∀ j, 1 ≤ j → j ≤ R → ∃ w, values.getD (i + j) none = some w ∧ v < w)

/-! ### Helper lemmas -/

theorem getD_range_map {α : Type _} (f : Nat → Option α) (n i : Nat) :
    ((List.range n).map f).getD i none = if i < n then f i else none := by
  rw [List.getD_eq_getElem?_getD]
  split
  · simp_all [List.getElem?_map]
  · have : ((List.range n).map f)[i]? = none := by
      simp [List.getElem?_eq_none_iff]; omega
    simp [this]

theorem emaGo_length (m : ℚ) (prev : Option ℚ) (vs : List (Option ℚ)) :
    (emaGo m prev vs).length = vs.length := by
  induction vs generalizing prev with
  | nil => rfl
  | cons v rest ih => simp [emaGo, ih]

theorem emaStep_eq_none_iff (m : ℚ) (prev v : Option ℚ) :
    emaStep m prev v = none ↔ v = none := by
  cases prev <;> simp [emaStep]

theorem emaGo_getD_none_iff (m : ℚ) (vs : List (Option ℚ)) :
    ∀ (prev : Option ℚ) (i : Nat),
      (emaGo m prev vs).getD i none = none ↔ vs.getD i none = none := by
  induction vs with
  | nil => intro prev i; rfl
  | cons v rest ih =>
    intro prev i
    cases i with
    | zero => simpa [emaGo] using emaStep_eq_none_iff m prev v
    | succ k => simpa [emaGo] using ih (emaStep m prev v) k

theorem emaGo_getD_succ (m : ℚ) (vs : List (Option ℚ)) :
    ∀ (prev : Option ℚ) (i : Nat), i + 1 < vs.length →
      (emaGo m prev vs).getD (i + 1) none =
        emaStep m ((emaGo m prev vs).getD i none) (vs.getD (i + 1) none) := by
  induction vs with
  | nil => intro prev i h; simp at h
  | cons v rest ih =>
    intro prev i h
    cases i with
    | zero =>
      cases rest with
      | nil => simp at h
      | cons r rs => simp [emaGo]
    | succ k =>
      have hk : k + 1 < rest.length := by simpa using h
      simpa [emaGo] using ih (emaStep m prev v) k hk

theorem okLE_eq_true_iff (v : ℚ) (x : Option ℚ) :
    okLE v x = true ↔ ∃ w, x = some w ∧ v ≤ w := by
  cases x <;> simp [okLE]

theorem okGE_eq_true_iff (v : ℚ) (x : Option ℚ) :
    okGE v x = true ↔ ∃ w, x = some w ∧ w ≤ v := by
  cases x <;> simp [okGE]

theorem window_shift_iff (P : Nat → Prop) (L : Nat) :
    (∀ j, j < L → P (j + 1)) ↔ (∀ j, 1 ≤ j → j ≤ L → P j) := by
  constructor
  · intro hp j h1 hL
    have := hp (j - 1) (by omega)
    rwa [Nat.sub_add_cancel h1] at this
  · intro hp j hj
    exact hp (j + 1) (by omega) (by omega)

theorem isLowAt_eq_true_iff (values : List (Option ℚ)) (L R i : Nat) :
    isLowAt values L R i = true ↔
      ∃ v, values.getD i none = some v ∧
        (∀ j, 1 ≤ j → j ≤ L → ∃ w, values.getD (i - j) none = some w ∧ v ≤ w) ∧
        (∀ j, 1 ≤ j → j ≤ R → ∃ w, values.getD (i + j) none = some w ∧ v ≤ w) := by
  cases hv : values.getD i none with
  | none =>
    simp only [isLowAt, hv]
    simp [hv]
  | some v =>
    simp only [isLowAt, hv, Bool.and_eq_true, List.all_eq_true, List.mem_range,
      okLE_eq_true_iff, Option.some.injEq]
    rw [window_shift_iff (fun j => ∃ w, values.getD (i - j) none = some w ∧ v ≤ w) L,
      window_shift_iff (fun j => ∃ w, values.getD (i + j) none = some w ∧ v ≤ w) R]
    constructor
    · rintro ⟨hl, hr⟩
      exact ⟨v, rfl, hl, hr⟩
    · rintro ⟨v', hv', hl, hr⟩
      subst hv'
      exact ⟨hl, hr⟩

theorem isHighAt_eq_true_iff (values : List (Option ℚ)) (L R i : Nat) :
    isHighAt values L R i = true ↔
      ∃ v, values.getD i none = some v ∧
        (∀ j, 1 ≤ j → j ≤ L → ∃ w, values.getD (i - j) none = some w ∧ w ≤ v) ∧
        (∀ j, 1 ≤ j → j ≤ R → ∃ w, values.getD (i + j) none = some w ∧ w ≤ v) := by
  cases hv : values.getD i none with
  | none =>
    simp only [isHighAt, hv]
    simp [hv]
  | some v =>
    simp only [isHighAt, hv, Bool.and_eq_true, List.all_eq_true, List.mem_range,
      okGE_eq_true_iff, Option.some.injEq]
    rw [window_shift_iff (fun j => ∃ w, values.getD (i - j) none = some w ∧ w ≤ v) L,
      window_shift_iff (fun j => ∃ w, values.getD (i + j) none = some w ∧ w ≤ v) R]
    constructor
    · rintro ⟨hl, hr⟩
      exact ⟨v, rfl, hl, hr⟩
    · rintro ⟨v', hv', hl, hr⟩
      subst hv'
      exact ⟨hl, hr⟩

theorem mem_findPivots_lows (values : List (Option ℚ)) (L R i : Nat) :
    i ∈ (findPivots values L R).1 ↔
      L ≤ i ∧ i + R < values.length ∧ isLowAt values L R i = true := by
  simp only [findPivots, List.mem_filter, List.mem_range, Bool.and_eq_true,
    decide_eq_true_eq]
  constructor
  · rintro ⟨⟨_, h2, h3⟩, h4⟩
    exact ⟨h2, h3, h4⟩
  · rintro ⟨h2, h3, h4⟩
    exact ⟨⟨by omega, h2, h3⟩, h4⟩

theorem mem_findPivots_highs (values : List (Option ℚ)) (L R i : Nat) :
    i ∈ (findPivots values L R).2 ↔
      L ≤ i ∧ i + R < values.length ∧ isHighAt values L R i = true := by
  simp only [findPivots, List.mem_filter, List.mem_range, Bool.and_eq_true,
    decide_eq_true_eq]
  constructor
  · rintro ⟨⟨_, h2, h3⟩, h4⟩
    exact ⟨h2, h3, h4⟩
  · rintro ⟨h2, h3, h4⟩
    exact ⟨⟨by omega, h2, h3⟩, h4⟩

/-! ### Claim C1 -/

/-- C1 (counterexample): on the constant series `[0, 0, 0]` with lookbacks
`1, 1`, index 1 is reported as a low pivot although it is not strictly less
than its neighbours, refuting the claim's strict-inequality characterization. -/
theorem findPivots_strict_low_fails :
    1 ∈ (findPivots [some 0, some 0, some 0] 1 1).1 ∧
      ¬ specLowPivot [some 0, some 0, some 0] 1 1 1 := by
  constructor
  · decide
  · rintro ⟨-, -, v, hv, hl, -⟩
    obtain ⟨w, hw, hlt⟩ := hl 1 le_rfl le_rfl
    rw [show ([some 0, some 0, some 0].getD 1 none : Option ℚ) = some 0 from rfl] at hv
    rw [show ([some 0, some 0, some 0].getD (1 - 1) none : Option ℚ) = some 0 from rfl] at hw
    injection hv with ev
    injection hw with ew
    rw [← ev, ← ew] at hlt
    exact absurd hlt (lt_irrefl 0)

/-- C1 (amended): `findPivots` reports `i` as a low pivot iff `i` lies in
`[lookbackLeft, n-1-lookbackRight]`, `values[i]` is defined, every neighbour
in the left window `[i-L, i-1]` and right window `[i+1, i+R]` is defined, and
`values[i]` is LESS THAN OR EQUAL TO every one of those neighbours;
symmetrically (greater than or equal) for a high pivot. -/
theorem findPivots_pivot_characterization (values : List (Option ℚ)) (L R i : Nat) :
    (i ∈ (findPivots values L R).1 ↔
      L ≤ i ∧ i + R < values.length ∧
      ∃ v, values.getD i none = some v ∧
        (∀ j, 1 ≤ j → j ≤ L → ∃ w, values.getD (i - j) none = some w ∧ v ≤ w) ∧
        (∀ j, 1 ≤ j → j ≤ R → ∃ w, values.getD (i + j) none = some w ∧ v ≤ w)) ∧
    (i ∈ (findPivots values L R).2 ↔
      L ≤ i ∧ i + R < values.length ∧
      ∃ v, values.getD i none = some v ∧
        (∀ j, 1 ≤ j → j ≤ L → ∃ w, values.getD (i - j) none = some w ∧ w ≤ v) ∧
        (∀ j, 1 ≤ j → j ≤ R → ∃ w, values.getD (i + j) none = some w ∧ w ≤ v)) := by
  constructor
  · rw [mem_findPivots_lows, isLowAt_eq_true_iff]
  · rw [mem_findPivots_highs, isHighAt_eq_true_iff]

/-- C1 (witness): the amended characterization applied at the series
`[1, 0, 1]` certifies that index 1 is a low pivot. -/
theorem findPivots_pivot_characterization_witness :
    1 ∈ (findPivots [some 1, some 0, some 1] 1 1).1 :=
  (findPivots_pivot_characterization [some 1, some 0, some 1] 1 1 1).1.mpr
    ⟨by decide, by decide,
     0, rfl,
     fun j h1 h2 => by
       have hj : j = 1 := by omega
       subst hj
       exact ⟨1, rfl, by norm_num⟩,
     fun j h1 h2 => by
       have hj : j = 1 := by omega
       subst hj
       exact ⟨1, rfl, by norm_num⟩⟩

/-! ### Claim C2 -/

/-- C2 (counterexample): on the constant series `[0, 0, 0]` with lookbacks
`1, 1`, index 1 appears in both the low-pivot and the high-pivot lists, so
the two lists are not disjoint. -/
theorem findPivots_not_disjoint :
    1 ∈ (findPivots [some 0, some 0, some 0] 1 1).1 ∧
      1 ∈ (findPivots [some 0, some 0, some 0] 1 1).2 := by
  decide

/-- C2 (amended): an index lies in both pivot lists exactly when it is a
candidate whose value is defined and whose window neighbours are all defined
and all equal to it; on series without such flat windows the lists are
disjoint. -/
theorem findPivots_lows_inter_highs (values : List (Option ℚ)) (L R i : Nat) :
    (i ∈ (findPivots values L R).1 ∧ i ∈ (findPivots values L R).2) ↔
      L ≤ i ∧ i + R < values.length ∧
      ∃ v, values.getD i none = some v ∧
        (∀ j, 1 ≤ j → j ≤ L → values.getD (i - j) none = some v) ∧
        (∀ j, 1 ≤ j → j ≤ R → values.getD (i + j) none = some v) := by
  rw [mem_findPivots_lows, mem_findPivots_highs, isLowAt_eq_true_iff, isHighAt_eq_true_iff]
  constructor
  · rintro ⟨⟨h1, h2, v, hv, hlL, hlR⟩, ⟨-, -, v', hv', hhL, hhR⟩⟩
    rw [hv] at hv'
    injection hv' with e
    subst e
    refine ⟨h1, h2, v, hv, ?_, ?_⟩
    · intro j ha hb
      obtain ⟨w, hw, hvw⟩ := hlL j ha hb
      obtain ⟨w', hw', hwv⟩ := hhL j ha hb
      rw [hw] at hw'
      injection hw' with e'
      subst e'
      rw [hw, le_antisymm hwv hvw]
    · intro j ha hb
      obtain ⟨w, hw, hvw⟩ := hlR j ha hb
      obtain ⟨w', hw', hwv⟩ := hhR j ha hb
      rw [hw] at hw'
      injection hw' with e'
      subst e'
      rw [hw, le_antisymm hwv hvw]
  · rintro ⟨h1, h2, v, hv, hL, hR⟩
    exact ⟨⟨h1, h2, v, hv,
        fun j a b => ⟨v, hL j a b, le_refl v⟩,
        fun j a b => ⟨v, hR j a b, le_refl v⟩⟩,
      ⟨h1, h2, v, hv,
        fun j a b => ⟨v, hL j a b, le_refl v⟩,
        fun j a b => ⟨v, hR j a b, le_refl v⟩⟩⟩

/-- C2 (witness): the amended characterization applied at the constant series
`[2, 2, 2]` certifies that index 1 lies in both pivot lists. -/
theorem findPivots_lows_inter_highs_witness :
    1 ∈ (findPivots [some 2, some 2, some 2] 1 1).1 ∧
      1 ∈ (findPivots [some 2, some 2, some 2] 1 1).2 :=
  (findPivots_lows_inter_highs [some 2, some 2, some 2] 1 1 1).mpr
    ⟨by decide, by decide,
     2, rfl,
     fun j h1 h2 => by
       have hj : j = 1 := by omega
       subst hj
       rfl,
     fun j h1 h2 => by
       have hj : j = 1 := by omega
       subst hj
       rfl⟩

/-! ### EMA lemmas and claims C6, C10 -/

theorem ema_getD_none_iff (values : List (Option ℚ)) (period : Nat) (i : Nat) :
    (ema values period).getD i none = none ↔ values.getD i none = none :=
  emaGo_getD_none_iff _ values none i

theorem ema_getD_succ (values : List (Option ℚ)) (period : Nat) (i : Nat)
    (h : i + 1 < values.length) :
    (ema values period).getD (i + 1) none =
      emaStep (2 / ((period : ℚ) + 1)) ((ema values period).getD i none)
        (values.getD (i + 1) none) :=
  emaGo_getD_succ _ values none i h

/-- C6: the `ema` output at an index before which every input is undefined
equals the input there (in particular at the first defined input index); at
any index whose previous output is undefined the output equals the current
input (restart); otherwise the output follows
`output[i] = (input[i] - output[i-1]) * (2/(period+1)) + output[i-1]`. -/
theorem ema_output_rules (values : List (Option ℚ)) (period : Nat) :
    (∀ i, i < values.length → (∀ j, j < i → values.getD j none = none) →
      (ema values period).getD i none = values.getD i none) ∧
    (∀ i, i + 1 < values.length → (ema values period).getD i none = none →
      (ema values period).getD (i + 1) none = values.getD (i + 1) none) ∧
    (∀ i p x, i + 1 < values.length →
      (ema values period).getD i none = some p →
      values.getD (i + 1) none = some x →
      (ema values period).getD (i + 1) none =
        some ((x - p) * (2 / ((period : ℚ) + 1)) + p)) := by
  refine ⟨?_, ?_, ?_⟩
  · intro i hi hprev
    cases i with
    | zero =>
      cases values with
      | nil => simp at hi
      | cons v rest => rfl
    | succ k =>
      have hk : (ema values period).getD k none = none :=
        (ema_getD_none_iff values period k).mpr (hprev k (by omega))
      rw [ema_getD_succ values period k hi, hk]
      rfl
  · intro i hi h0
    rw [ema_getD_succ values period i hi, h0]
    rfl
  · intro i p x hi hp hx
    rw [ema_getD_succ values period i hi, hp, hx]
    rfl

/-- C6 (witness): on the input `[undefined, 5, 8]` with period 3 the output
restarts to `5` at index 1 and then follows the smoothing formula at index 2. -/
theorem ema_output_rules_witness :
    (ema [none, some 5, some 8] 3).getD 1 none = some 5 ∧
      (ema [none, some 5, some 8] 3).getD 2 none =
        some ((8 - 5) * (2 / ((3 : ℚ) + 1)) + 5) := by
  have h1 : (ema [none, some 5, some 8] 3).getD 1 none = some 5 := by
    have hstep := (ema_output_rules [none, some 5, some 8] 3).1 1 (by decide)
      (fun j hj => by
        have hj0 : j = 0 := by omega
        subst hj0
        rfl)
    exact hstep.trans rfl
  exact ⟨h1, (ema_output_rules [none, some 5, some 8] 3).2.2 1 5 8 (by decide) h1 rfl⟩

/-- C10: `ema` output has exactly the defined/undefined pattern of its input:
same length, and the entry at every index is undefined iff the input there is
undefined; in particular `ema` never extends a warm-up region. -/
theorem ema_defined_pattern (values : List (Option ℚ)) (period : Nat) :
    (ema values period).length = values.length ∧
    ∀ i, ((ema values period).getD i none = none ↔ values.getD i none = none) :=
  ⟨emaGo_length _ none values, fun i => emaGo_getD_none_iff _ values none i⟩

/-! ### Divergence lemmas and claims C3, C4, C5 -/

theorem mem_gated {ms s : ℚ} {d' d : Divergence} :
    d ∈ gated ms s d' ↔ ms ≤ s ∧ d = d' := by
  unfold gated
  split
  · simp [*]
  · simp [*]

theorem calcStrength_bounds (a b : ℚ) (e f g : Bool) :
    0 ≤ calcStrength a b e f g ∧ calcStrength a b e f g ≤ 10 := by
  unfold calcStrength
  constructor
  · have h1 : (0 : ℚ) ≤ min 3 (|a| * 100) := le_min (by norm_num) (by positivity)
    have h2 : (0 : ℚ) ≤ min 3 (|b| / 30) := le_min (by norm_num) (by positivity)
    have h3 : (0 : ℚ) ≤ (if e then (3 : ℚ) / 2 else 0) := by split <;> norm_num
    have h4 : (0 : ℚ) ≤ (if f then (1 : ℚ) else 0) := by split <;> norm_num
    have h5 : (0 : ℚ) ≤ (if g then (1 : ℚ) else 0) := by split <;> norm_num
    exact le_min (by norm_num) (by linarith)
  · exact min_le_left _ _

theorem bullPair_spec (bars : List Bar) (cci mom vol av : List (Option ℚ)) (ms : ℚ)
    (p : Nat × Nat) (d : Divergence) (hd : d ∈ bullPair bars cci mom vol av ms p) :
    (5 ≤ p.2 - p.1 ∧ p.2 - p.1 ≤ 60) ∧
      ∃ a b e f g, d.strength = calcStrength a b e f g := by
  simp only [bullPair] at hd
  split at hd
  · simp at hd
  · next hgap =>
    refine ⟨by omega, ?_⟩
    split at hd
    · rcases List.mem_append.1 hd with h | h
      · split at h
        · rw [mem_gated] at h
          obtain ⟨-, rfl⟩ := h
          exact ⟨_, _, _, _, _, rfl⟩
        · simp at h
      · split at h
        · rw [mem_gated] at h
          obtain ⟨-, rfl⟩ := h
          exact ⟨_, _, _, _, _, rfl⟩
        · simp at h
    · simp at hd

theorem bearPair_spec (bars : List Bar) (cci mom vol av : List (Option ℚ)) (ms : ℚ)
    (p : Nat × Nat) (d : Divergence) (hd : d ∈ bearPair bars cci mom vol av ms p) :
    (5 ≤ p.2 - p.1 ∧ p.2 - p.1 ≤ 60) ∧
      ∃ a b e f g, d.strength = calcStrength a b e f g := by
  simp only [bearPair] at hd
  split at hd
  · simp at hd
  · next hgap =>
    refine ⟨by omega, ?_⟩
    split at hd
    · rcases List.mem_append.1 hd with h | h
      · split at h
        · rw [mem_gated] at h
          obtain ⟨-, rfl⟩ := h
          exact ⟨_, _, _, _, _, rfl⟩
        · simp at h
      · split at h
        · rw [mem_gated] at h
          obtain ⟨-, rfl⟩ := h
          exact ⟨_, _, _, _, _, rfl⟩
        · simp at h
    · simp at hd

theorem mem_detectDivergences_iff (bars : List Bar)
    (cci mom vol av : List (Option ℚ)) (ms : ℚ) (d : Divergence) :
    d ∈ detectDivergences bars cci mom vol av ms ↔
      ((∃ p ∈ adjacentPairs (findPivots cci 5 5).1, d ∈ bullPair bars cci mom vol av ms p) ∨
       (∃ p ∈ adjacentPairs (findPivots cci 5 5).2, d ∈ bearPair bars cci mom vol av ms p)) ∧
      recencyCutoff bars ≤ d.timestamp := by
  simp only [detectDivergences, List.mem_filter, List.mem_append, List.mem_flatMap,
    decide_eq_true_eq]

/-- C3: every divergence returned by `detectDivergences` has its strength,
computed by `calcStrength` as `min(10, priceScore + oscillatorScore +
bonuses)` over nonnegative terms, inside the closed interval `[0, 10]`. -/
theorem detectDivergences_strength_bounds (bars : List Bar)
    (cci mom vol av : List (Option ℚ)) (ms : ℚ) (d : Divergence)
    (hd : d ∈ detectDivergences bars cci mom vol av ms) :
    0 ≤ d.strength ∧ d.strength ≤ 10 := by
  rcases ((mem_detectDivergences_iff bars cci mom vol av ms d).1 hd).1 with h | h
  · obtain ⟨p, -, hp⟩ := h
    obtain ⟨-, a, b, e, f, g, hs⟩ := bullPair_spec bars cci mom vol av ms p d hp
    rw [hs]
    exact calcStrength_bounds a b e f g
  · obtain ⟨p, -, hp⟩ := h
    obtain ⟨-, a, b, e, f, g, hs⟩ := bearPair_spec bars cci mom vol av ms p d hp
    rw [hs]
    exact calcStrength_bounds a b e f g

/-- C4: every returned divergence comes from an adjacent pivot pair of one
kind whose index gap lies in `[5, 60]`, and an adjacent pair whose gap falls
outside `[5, 60]` produces no divergence at all. -/
theorem detectDivergences_pair_gap (bars : List Bar)
    (cci mom vol av : List (Option ℚ)) (ms : ℚ) :
    (∀ d ∈ detectDivergences bars cci mom vol av ms,
      (∃ p ∈ adjacentPairs (findPivots cci 5 5).1,
        5 ≤ p.2 - p.1 ∧ p.2 - p.1 ≤ 60 ∧ d ∈ bullPair bars cci mom vol av ms p) ∨
      (∃ p ∈ adjacentPairs (findPivots cci 5 5).2,
        5 ≤ p.2 - p.1 ∧ p.2 - p.1 ≤ 60 ∧ d ∈ bearPair bars cci mom vol av ms p)) ∧
    (∀ p : Nat × Nat, p.2 - p.1 < 5 ∨ 60 < p.2 - p.1 →
      bullPair bars cci mom vol av ms p = [] ∧ bearPair bars cci mom vol av ms p = []) := by
  constructor
  · intro d hd
    rcases ((mem_detectDivergences_iff bars cci mom vol av ms d).1 hd).1 with h | h
    · obtain ⟨p, hmem, hp⟩ := h
      obtain ⟨⟨h5, h60⟩, -⟩ := bullPair_spec bars cci mom vol av ms p d hp
      exact Or.inl ⟨p, hmem, h5, h60, hp⟩
    · obtain ⟨p, hmem, hp⟩ := h
      obtain ⟨⟨h5, h60⟩, -⟩ := bearPair_spec bars cci mom vol av ms p d hp
      exact Or.inr ⟨p, hmem, h5, h60, hp⟩
  · intro p hp
    constructor
    · unfold bullPair
      rw [if_pos hp]
    · unfold bearPair
      rw [if_pos hp]

/-- C5: when the bar at index `max(0, n-15)` exists (any non-empty bar
sequence), every divergence returned by `detectDivergences` has a timestamp
at least that bar's timestamp. -/
theorem detectDivergences_recency (bars : List Bar)
    (cci mom vol av : List (Option ℚ)) (ms : ℚ) (b : Bar)
    (hb : bars.get? (bars.length - 15) = some b)
    (d : Divergence) (hd : d ∈ detectDivergences bars cci mom vol av ms) :
    b.t ≤ d.timestamp := by
  have h := ((mem_detectDivergences_iff bars cci mom vol av ms d).1 hd).2
  unfold recencyCutoff at h
  rw [hb] at h
  have h' : (if b.t = 0 then (0 : ℚ) else b.t) ≤ d.timestamp := h
  by_cases h0 : b.t = 0
  · rw [h0]
    rwa [if_pos h0] at h'
  · rwa [if_neg h0] at h'

/-! ### Indicator-calculator lemmas and claims C7, C8, C9 -/

theorem sma_getD (values : List ℚ) (p i : Nat) :
    (sma values p).getD i none =
      if i < values.length then
        (if i + 1 < p then none
         else some ((((values.take (i + 1)).drop (i + 1 - p)).sum) / p))
      else none := by
  simp only [sma]
  rw [getD_range_map]

/-- C7: the raw oscillator entry of `calculateCCI` is undefined exactly when
the windowed mean or the mean absolute deviation is undefined or the latter
is zero; in every other case it equals
`(typicalPrice - tpAvg) / (0.015 * meanDev)`, so the division never sees a
zero or undefined divisor. -/
theorem rawCCI_division_guard (bars : List Bar) (period : Nat) (i : Nat) :
    ((rawCCI bars period).getD i none = none ↔
      (sma (bars.map hlc3) period).getD i none = none ∨
      (meanDeviation (bars.map hlc3) period).getD i none = none ∨
      (meanDeviation (bars.map hlc3) period).getD i none = some 0) ∧
    (∀ m dev, (sma (bars.map hlc3) period).getD i none = some m →
      (meanDeviation (bars.map hlc3) period).getD i none = some dev → dev ≠ 0 →
      (rawCCI bars period).getD i none =
        some (((bars.map hlc3).getD i 0 - m) / (3 / 200 * dev))) := by
  constructor
  · simp only [rawCCI]
    rw [getD_range_map]
    by_cases hi : i < (bars.map hlc3).length
    · rw [if_pos hi]
      cases hm : (sma (bars.map hlc3) period).getD i none with
      | none => simp
      | some m =>
        cases hdev : (meanDeviation (bars.map hlc3) period).getD i none with
        | none => simp
        | some dev =>
          by_cases h0 : dev = 0
          · subst h0
            simp
          · simp [h0]
    · rw [if_neg hi]
      rw [sma_getD, if_neg hi]
      simp
  · intro m dev hm hdev h0
    have hi : i < (bars.map hlc3).length := by
      by_contra hc
      rw [sma_getD, if_neg hc] at hm
      exact Option.noConfusion hm
    simp only [rawCCI]
    rw [getD_range_map, if_pos hi, hm, hdev]
    simp [h0]

/-- C8: on an empty bar sequence `calculateCCI` returns (never throws) and
all four output series are empty. -/
theorem calculateCCI_empty (period smoothing : Nat) :
    calculateCCI [] period smoothing = ⟨[], [], [], []⟩ := rfl

/-- C9 (amended): in the output of `calculateCCI`, the `volume` series is
always defined and the undefined markers of `avgVolume` form a contiguous
prefix; the `cci` (and `momentum`) series, however, can carry interior
undefined entries when the mean deviation vanishes on a window after
warm-up. -/
theorem calculateCCI_avgVolume_prefix (bars : List Bar) (period smoothing : Nat)
    (i j : Nat) (hij : j ≤ i) (hi : i < bars.length)
    (hj : (calculateCCI bars period smoothing).avgVolume.getD j none ≠ none) :
    (calculateCCI bars period smoothing).avgVolume.getD i none ≠ none := by
  have hav : (calculateCCI bars period smoothing).avgVolume = sma (bars.map Bar.v) 20 := rfl
  rw [hav] at hj ⊢
  rw [sma_getD] at hj ⊢
  have hlen : (bars.map Bar.v).length = bars.length := List.length_map _ _
  by_cases hjl : j < (bars.map Bar.v).length
  case neg => rw [if_neg hjl] at hj; exact absurd rfl hj
  rw [if_pos hjl] at hj
  by_cases hw : j + 1 < 20
  · rw [if_pos hw] at hj
    exact absurd rfl hj
  · rw [if_pos (show i < (bars.map Bar.v).length by omega),
      if_neg (show ¬ i + 1 < 20 by omega)]
    simp

/-! ### Witnesses and counterexamples that evaluate the pipeline on concrete
inputs (the arithmetic operations on `ℚ` are made reducible so that `decide`
can evaluate them in the kernel) -/

set_option allowUnsafeReducibility true

section

attribute [local semireducible] Rat.add Rat.sub Rat.mul Rat.div Rat.inv

/-- C3 (witness): the strength bound applied to the one divergence that the
concrete scenario `exBars` / `exCCI` produces. -/
theorem detectDivergences_strength_bounds_witness :
    0 ≤ exDiv.strength ∧ exDiv.strength ≤ 10 :=
  detectDivergences_strength_bounds exBars exCCI [] [] [] 3 exDiv (by decide)

/-- C4 (witness): an adjacent pair with gap 1 (outside `[5, 60]`) emits no
divergence of either kind. -/
theorem detectDivergences_pair_gap_witness :
    bullPair exBars exCCI [] [] [] 3 (0, 1) = [] ∧
      bearPair exBars exCCI [] [] [] 3 (0, 1) = [] :=
  (detectDivergences_pair_gap exBars exCCI [] [] [] 3).2 (0, 1) (by decide)

/-- C5 (witness): in the concrete scenario the cutoff bar is
`exBars[17 - 15]` and the emitted divergence's timestamp respects it. -/
theorem detectDivergences_recency_witness :
    (mkBar 1).t ≤ exDiv.timestamp :=
  detectDivergences_recency exBars exCCI [] [] [] 3 (mkBar 1) (by decide) exDiv (by decide)

/-- C7 (witness): on two bars with typical prices 0 and 1 and period 2, the
windowed mean and mean deviation at index 1 are both `1/2`, and the raw
oscillator value follows the division formula. -/
theorem rawCCI_division_guard_witness :
    (rawCCI exPair 2).getD 1 none =
      some (((exPair.map hlc3).getD 1 0 - 1 / 2) / (3 / 200 * (1 / 2))) :=
  (rawCCI_division_guard exPair 2 1).2 (1 / 2) (1 / 2) (by decide) (by decide) (by norm_num)

/-- C9 (counterexample): on `exFlat` (one bar at price 0 followed by twenty
bars at price 1, default parameters 20 and 5) the smoothed CCI is defined at
index 19 but undefined at index 20, so undefined markers are NOT confined to
a contiguous prefix of the `cci` series. -/
theorem calculateCCI_cci_interior_undefined :
    (calculateCCI exFlat 20 5).cci.getD 19 none ≠ none ∧
      (calculateCCI exFlat 20 5).cci.getD 20 none = none := by
  decide

/-- C9 (witness): the contiguous-prefix property of `avgVolume` applied on
`exFlat` at indices 19 and 20. -/
theorem calculateCCI_avgVolume_prefix_witness :
    (calculateCCI exFlat 20 5).avgVolume.getD 20 none ≠ none :=
  calculateCCI_avgVolume_prefix exFlat 20 5 20 19 (by omega) (by decide) (by decide)

end
